import Mathlib

/-!
Verification of the decision logic of the `hwm` window-manager configuration
(`src/main.rs`, a penrose-based window manager).

The configuration data (spawn rules, floating classes, the three scratchpads,
layouts) is embedded directly from `src/main.rs`.  The engines the configuration
drives (the `ClientSpawnRules` match-rule engine, the `Scratchpad` extension,
the sticky extension, the conditional layout selector and the config validator)
live in the penrose library, outside this repository's sources; those are
modelled from the specification's contracts, as noted on each definition.
-/

set_option autoImplicit false

/-- Semantic record of a managed window: opaque unique id, WM_CLASS class name,
and human-readable title.  Immutable, assigned by the external runtime. -/
structure ClientIdentity where
  id : Nat
  className : String
  title : String
deriving DecidableEq

/-- A declarative spawn rule, from `ClientSpawnRules::new` in `src/main.rs`:
either a WM_CLASS pattern or a WM_NAME (title) pattern, each carrying an
advisory priority integer (used by the caller as a workspace index). -/
inductive SpawnRule where
  | className (pattern : String) (priority : Int)
  | wmName (pattern : String) (priority : Int)
deriving DecidableEq

/-- The advisory priority attached to a rule. -/
def SpawnRule.priority : SpawnRule → Int
  | .className _ p => p
  | .wmName _ p => p

/-- Whether a rule's predicate holds against a client identity: a `className`
rule compares the identity's class name, a `wmName` rule its title. -/
def ruleMatches (c : ClientIdentity) : SpawnRule → Bool
  | .className pat _ => c.className == pat
  | .wmName pat _ => c.title == pat

/-- Modelled from the spec: the match-rule engine
(`resolve(identity, rules) -> optional<priority>`, penrose contrib
`ClientSpawnRules`; the engine's code is not under `src/`).  It iterates the
rule sequence in caller-defined order and returns the priority of the first
rule whose predicate holds, or `none` when no rule matches. -/
def resolve (c : ClientIdentity) : List SpawnRule → Option Int
  | [] => none
  | r :: rest => if ruleMatches c r then some r.priority else resolve c rest

/-- The ordered rule sequence registered in `src/main.rs` (lines 142-154). -/
def spawnRules : List SpawnRule :=
  [.className ("Tor Browser") 0,
   .className ("brave-browser") 3,
   .className ("firefox") 3,
   .className ("gimp") 8,
   .className ("signal") 4,
   .className ("Thunderbird") 3,
   .className ("anki") 2,
   .wmName ("st - heiko@ed") 1,
   .wmName ("st - heiko@ed2") 1,
   .wmName ("st - heiko@backup") 1,
   .wmName ("st - heiko@localhost") 0]

theorem resolve_eq_none_iff (c : ClientIdentity) (rules : List SpawnRule) :
    resolve c rules = none ↔ ∀ r ∈ rules, ruleMatches c r = false := by
  induction rules with
  | nil => simp [resolve]
  | cons r rest ih =>
    cases hm : ruleMatches c r with
    | true => simp [resolve, hm]
    | false => simp [resolve, hm, ih]

theorem resolve_eq_some_iff (c : ClientIdentity) (rules : List SpawnRule) (p : Int) :
    resolve c rules = some p ↔
      ∃ pre r post, rules = pre ++ r :: post ∧
        (∀ q ∈ pre, ruleMatches c q = false) ∧
        ruleMatches c r = true ∧ r.priority = p := by
  induction rules with
  | nil =>
    simp only [resolve]
    constructor
    · intro h; exact Option.noConfusion h
    · rintro ⟨pre, r, post, h, -, -, -⟩
      exact absurd h (by simp)
  | cons r rest ih =>
    cases hm : ruleMatches c r with
    | true =>
      simp only [resolve, hm, if_pos]
      constructor
      · intro h
        refine ⟨[], r, rest, rfl, by simp, hm, ?_⟩
        exact Option.some.inj h
      · rintro ⟨pre, r0, post, heq, hpre, hr0, hp⟩
        cases pre with
        | nil =>
          simp only [List.nil_append, List.cons.injEq] at heq
          obtain ⟨rfl, rfl⟩ := heq
          rw [hp]
        | cons q pre2 =>
          simp only [List.cons_append, List.cons.injEq] at heq
          obtain ⟨rfl, -⟩ := heq
          have hq := hpre r (List.mem_cons_self r pre2)
          rw [hm] at hq
          exact absurd hq (by simp)
    | false =>
      simp only [resolve, hm, Bool.false_eq_true, if_false]
      rw [ih]
      constructor
      · rintro ⟨pre, r0, post, heq, hpre, hr0, hp⟩
        refine ⟨r :: pre, r0, post, by rw [heq, List.cons_append], ?_, hr0, hp⟩
        intro q hq
        rcases List.mem_cons.mp hq with rfl | hq2
        · exact hm
        · exact hpre q hq2
      · rintro ⟨pre, r0, post, heq, hpre, hr0, hp⟩
        cases pre with
        | nil =>
          simp only [List.nil_append, List.cons.injEq] at heq
          obtain ⟨rfl, rfl⟩ := heq
          rw [hm] at hr0
          exact absurd hr0 (by simp)
        | cons q pre2 =>
          simp only [List.cons_append, List.cons.injEq] at heq
          obtain ⟨rfl, heq2⟩ := heq
          exact ⟨pre2, r0, post, heq2,
            fun q2 hq2 => hpre q2 (List.mem_cons_of_mem _ hq2), hr0, hp⟩

/-- C1: for every ordered rule sequence and client identity, `resolve` is a
pure function (deterministic and side-effect-free by construction), iterates
the rules in caller-defined insertion order, and returns the priority attached
to the first rule whose predicate matches the identity's class name or title,
or `none` when no rule matches. -/
theorem C1_resolve_first_match (c : ClientIdentity) (rules : List SpawnRule) :
    (resolve c rules = none ↔ ∀ r ∈ rules, ruleMatches c r = false) ∧
    ∀ p : Int, resolve c rules = some p ↔
      ∃ pre r post, rules = pre ++ r :: post ∧
        (∀ q ∈ pre, ruleMatches c q = false) ∧
        ruleMatches c r = true ∧ r.priority = p :=
  ⟨resolve_eq_none_iff c rules, fun p => resolve_eq_some_iff c rules p⟩

/-- Witness for C1 on the configured rule list of `src/main.rs`: a client with
class name "firefox" resolves to priority 3, via the explicit first-match
decomposition of `spawnRules`. -/
theorem C1_resolve_first_match_witness :
    resolve ⟨7, "firefox", "x"⟩ spawnRules = some 3 :=
  ((C1_resolve_first_match ⟨7, "firefox", "x"⟩ spawnRules).2 3).mpr
    ⟨[.className ("Tor Browser") 0, .className ("brave-browser") 3],
     .className ("firefox") 3,
     [.className ("gimp") 8, .className ("signal") 4,
      .className ("Thunderbird") 3, .className ("anki") 2,
      .wmName ("st - heiko@ed") 1, .wmName ("st - heiko@ed2") 1,
      .wmName ("st - heiko@backup") 1, .wmName ("st - heiko@localhost") 0],
     by decide, by decide, by decide, rfl⟩

/-- Modelled from the spec: per-named-scratchpad configuration (penrose contrib
`Scratchpad`; the extension's code is not under `src/`).  Fields are the spec's
`ScratchpadState` configuration: program command string, target match
predicate, desired geometry fractions, and the focus-on-show flag.  The
ownership slot is carried separately in `SpState`. -/
structure Scratchpad where
  prog : String
  pred : ClientIdentity → Bool
  wFrac : ℚ
  hFrac : ℚ
  focusOnShow : Bool

/-- Modelled from the spec: the scratchpad controller's four states; `hidden`
and `visible` carry the ownership slot's client id. -/
inductive SpState where
  | empty
  | pendingSpawn
  | hidden (clientId : Nat)
  | visible (clientId : Nat)
deriving DecidableEq

/-- The ownership slot: the client id a scratchpad state tracks, if any. -/
def SpState.slot : SpState → Option Nat
  | .hidden cid => some cid
  | .visible cid => some cid
  | _ => none

/-- External-collaborator requests a transition can issue: spawning the
program, applying the configured floating geometry, transferring focus,
hiding the client. -/
inductive Effect where
  | spawnCmd (cmd : String)
  | applyGeometry (w h : ℚ) (clientId : Nat)
  | focusClient (clientId : Nat)
  | hideClient (clientId : Nat)
deriving DecidableEq

/-- Requests issued on every transition into `visible`: re-apply the
configured geometry fractions as a floating placement, and optionally
transfer focus. -/
def showEffects (sp : Scratchpad) (cid : Nat) : List Effect :=
  .applyGeometry sp.wFrac sp.hFrac cid ::
    (if sp.focusOnShow then [.focusClient cid] else [])

/-- Modelled from the spec: the `toggle` operation.  `empty` spawns the
program and records a pending spawn; `pendingSpawn` is a no-op (explicit
debouncing contract); `visible` hides the client retaining its identity;
`hidden` restores the configured floating placement. -/
def spToggle (sp : Scratchpad) : SpState → SpState × List Effect
  | .empty => (.pendingSpawn, [.spawnCmd sp.prog])
  | .pendingSpawn => (.pendingSpawn, [])
  | .visible cid => (.hidden cid, [.hideClient cid])
  | .hidden cid => (.visible cid, showEffects sp cid)

/-- Modelled from the spec: the client-created hook.  While a spawn is
pending, a newly created client matching the predicate is claimed: its id is
recorded in the slot, geometry is applied and focus optionally transferred.
In all other states, or on a mismatch, the event is not claimed. -/
def spClientCreated (sp : Scratchpad) (c : ClientIdentity) : SpState → SpState × List Effect
  | .pendingSpawn =>
      if sp.pred c then (.visible c.id, showEffects sp c.id) else (.pendingSpawn, [])
  | s => (s, [])

/-- Modelled from the spec: the client-destroyed hook clears the slot when
the tracked client disappears externally. -/
def spClientDestroyed (cid : Nat) : SpState → SpState × List Effect
  | .visible j => if j = cid then (.empty, []) else (.visible j, [])
  | .hidden j => if j = cid then (.empty, []) else (.hidden j, [])
  | s => (s, [])

/-- Lifecycle events delivered to one scratchpad by the external runtime. -/
inductive SpEvent where
  | toggle
  | clientCreated (c : ClientIdentity)
  | clientDestroyed (clientId : Nat)

/-- One lifecycle step of a single scratchpad. -/
def spStep (sp : Scratchpad) (s : SpState) : SpEvent → SpState × List Effect
  | .toggle => spToggle sp s
  | .clientCreated c => spClientCreated sp c s
  | .clientDestroyed cid => spClientDestroyed cid s

/-- Run a sequence of events, accumulating the issued effects. -/
def spRun (sp : Scratchpad) : SpState → List SpEvent → SpState × List Effect
  | s, [] => (s, [])
  | s, e :: es =>
      let step := spStep sp s e
      let rest := spRun sp step.1 es
      (rest.1, step.2 ++ rest.2)

/-- The sequence of states visited after each event. -/
def spTrace (sp : Scratchpad) : SpState → List SpEvent → List SpState
  | _, [] => []
  | s, e :: es =>
      let s2 := (spStep sp s e).1
      s2 :: spTrace sp s2 es

/-- The scratchpad configured three times in `src/main.rs` (lines 159-163):
`Scratchpad::new("st", 0.8, 0.8)`, matching clients whose class name is the
spawned program. -/
def spSt : Scratchpad :=
  { prog := "st", pred := fun c => c.className == "st",
    wFrac := 8/10, hFrac := 8/10, focusOnShow := true }

/-- C2: starting from `empty`, the trace toggle, client_created with a
matching identity, toggle, toggle passes through `pendingSpawn`, `visible`,
`hidden`, `visible`, and the ownership slot holds the same client id in every
`visible` and `hidden` state of the trace. -/
theorem C2_scratchpad_toggle_trace (sp : Scratchpad) (c : ClientIdentity)
    (hmatch : sp.pred c = true) :
    spTrace sp .empty [.toggle, .clientCreated c, .toggle, .toggle] =
      [.pendingSpawn, .visible c.id, .hidden c.id, .visible c.id] ∧
    ∀ s ∈ spTrace sp .empty [.toggle, .clientCreated c, .toggle, .toggle],
      s.slot = none ∨ s.slot = some c.id := by
  have htrace :
      spTrace sp .empty [.toggle, .clientCreated c, .toggle, .toggle] =
        [.pendingSpawn, .visible c.id, .hidden c.id, .visible c.id] := by
    simp [spTrace, spStep, spToggle, spClientCreated, hmatch]
  refine ⟨htrace, ?_⟩
  rw [htrace]
  intro s hs
  simp only [List.mem_cons, List.not_mem_nil, or_false] at hs
  rcases hs with rfl | rfl | rfl | rfl
  · exact Or.inl rfl
  · exact Or.inr rfl
  · exact Or.inr rfl
  · exact Or.inr rfl

/-- Witness for C2 on the configured "st" scratchpad with a created client of
class "st" and id 1. -/
theorem C2_scratchpad_toggle_trace_witness :
    spSt.pred ⟨1, "st", "st"⟩ = true ∧
    spTrace spSt .empty
        [.toggle, .clientCreated ⟨1, "st", "st"⟩, .toggle, .toggle] =
      [.pendingSpawn, .visible 1, .hidden 1, .visible 1] :=
  ⟨by decide, (C2_scratchpad_toggle_trace spSt ⟨1, "st", "st"⟩ (by decide)).1⟩

/-- Recognizer for process-spawn requests among issued effects. -/
def isSpawnEffect : Effect → Bool
  | .spawnCmd _ => true
  | _ => false

/-- C3: toggle while in `pendingSpawn` is a no-op, so two consecutive toggles
starting from `empty` issue exactly one spawn of the configured program
command, never two. -/
theorem C3_pending_toggle_single_spawn (sp : Scratchpad) :
    spToggle sp .pendingSpawn = (.pendingSpawn, []) ∧
    (spRun sp .empty [.toggle, .toggle]).2.countP isSpawnEffect = 1 := by
  constructor
  · rfl
  · rfl

/-- C5: every transition into `visible` re-applies the configured floating
placement of `wFrac`×`hFrac` of the screen: both the claim transition
(`pendingSpawn` to `visible` on a matching client-created event) and the show
transition (`hidden` to `visible` on toggle) issue the identical
`applyGeometry` request with the configured fractions. -/
theorem C5_geometry_reapplied_on_show (sp : Scratchpad) (c : ClientIdentity)
    (cid : Nat) (hmatch : sp.pred c = true) :
    (spClientCreated sp c .pendingSpawn).1 = .visible c.id ∧
    Effect.applyGeometry sp.wFrac sp.hFrac c.id ∈ (spClientCreated sp c .pendingSpawn).2 ∧
    (spToggle sp (.hidden cid)).1 = .visible cid ∧
    Effect.applyGeometry sp.wFrac sp.hFrac cid ∈ (spToggle sp (.hidden cid)).2 := by
  refine ⟨?_, ?_, rfl, ?_⟩
  · simp [spClientCreated, hmatch]
  · simp [spClientCreated, hmatch, showEffects]
  · simp [spToggle, showEffects]

/-- Witness for C5 on the configured "st" scratchpad: the geometry request
carries the configured fractions 8/10 × 8/10 both on claim and on re-show. -/
theorem C5_geometry_reapplied_on_show_witness :
    spSt.pred ⟨1, "st", "st"⟩ = true ∧
    ((spClientCreated spSt ⟨1, "st", "st"⟩ .pendingSpawn).1 = .visible 1 ∧
     Effect.applyGeometry (8/10) (8/10) 1 ∈ (spClientCreated spSt ⟨1, "st", "st"⟩ .pendingSpawn).2 ∧
     (spToggle spSt (.hidden 1)).1 = .visible 1 ∧
     Effect.applyGeometry (8/10) (8/10) 1 ∈ (spToggle spSt (.hidden 1)).2) :=
  ⟨by decide, C5_geometry_reapplied_on_show spSt ⟨1, "st", "st"⟩ 1 (by decide)⟩

/-- One registered scratchpad hook: its configuration and its current state. -/
structure PadState where
  sp : Scratchpad
  st : SpState

/-- Modelled from the spec: the process-wide runtime state seen by the
scratchpad hooks — the registered scratchpads in registration order, and the
set of currently live client ids maintained by the external runtime
(creation and destruction notifications). -/
structure SysState where
  pads : List PadState
  live : Finset Nat

/-- System-level lifecycle events: a key-triggered toggle of the i-th
registered scratchpad, a client-created notification (delivered to every
registered hook in registration order), and a client-destroyed
notification. -/
inductive SysEvent where
  | toggleKey (i : Nat)
  | clientCreated (c : ClientIdentity)
  | clientDestroyed (clientId : Nat)

/-- Replace the i-th element of a list by its image under `f`. -/
def updateAt {α : Type} (f : α → α) : Nat → List α → List α
  | _, [] => []
  | 0, x :: xs => f x :: xs
  | j + 1, x :: xs => x :: updateAt f j xs

/-- Modelled from the spec: one system step.  A toggle reaches only the bound
scratchpad; a client-created notification is delivered to every hook (each
pending scratchpad whose predicate matches claims the client); ids issued by
the external runtime are unique among live clients, so a created event
carrying a live id is not possible and is ignored; a destroyed notification
clears any slot tracking that client. -/
def sysStep (s : SysState) : SysEvent → SysState
  | .toggleKey i =>
      { s with pads := updateAt (fun p => { p with st := (spToggle p.sp p.st).1 }) i s.pads }
  | .clientCreated c =>
      if c.id ∈ s.live then s
      else
        { pads := s.pads.map (fun p => { p with st := (spClientCreated p.sp c p.st).1 }),
          live := insert c.id s.live }
  | .clientDestroyed cid =>
      { pads := s.pads.map (fun p => { p with st := (spClientDestroyed cid p.st).1 }),
        live := s.live.erase cid }

/-- Run a sequence of system events. -/
def sysRun (s : SysState) : List SysEvent → SysState
  | [] => s
  | e :: es => sysRun (sysStep s e) es

/-- Startup state: every registered scratchpad's slot is empty, no live
clients are tracked yet. -/
def sysInit (sps : List Scratchpad) : SysState :=
  { pads := sps.map (fun sp => { sp := sp, st := .empty }), live := ∅ }

/-- The three identically configured scratchpads registered in
`src/main.rs` (lines 159-164), all spawning "st". -/
def mainScratchpads : List Scratchpad := [spSt, spSt, spSt]

/-- Every occupied ownership slot tracks a currently live client. -/
def SlotsLive (s : SysState) : Prop :=
  ∀ p ∈ s.pads, ∀ cid, p.st.slot = some cid → cid ∈ s.live

/-- No two scratchpads' ownership slots track the same client id. -/
def SlotsDisjoint (s : SysState) : Prop :=
  s.pads.Pairwise (fun p q => ∀ cid, p.st.slot = some cid → q.st.slot ≠ some cid)

/-- Pairwise disjoint match predicates: no client identity is matched by two
of the registered scratchpads. -/
def PredsDisjoint (sps : List Scratchpad) : Prop :=
  sps.Pairwise (fun a b => ∀ c : ClientIdentity, ¬(a.pred c = true ∧ b.pred c = true))

theorem spToggle_slot (sp : Scratchpad) (st : SpState) :
    ((spToggle sp st).1).slot = st.slot := by
  cases st <;> rfl

theorem spClientDestroyed_slot (cid : Nat) (st : SpState) :
    ((spClientDestroyed cid st).1).slot = if st.slot = some cid then none else st.slot := by
  cases st with
  | empty => rfl
  | pendingSpawn => rfl
  | hidden j =>
    by_cases h : j = cid <;> simp [spClientDestroyed, SpState.slot, h]
  | visible j =>
    by_cases h : j = cid <;> simp [spClientDestroyed, SpState.slot, h]

/-- Whether a pad claims a created client: it is pending and its predicate
matches. -/
def claims (p : PadState) (c : ClientIdentity) : Prop :=
  p.st = .pendingSpawn ∧ p.sp.pred c = true

instance (p : PadState) (c : ClientIdentity) : Decidable (claims p c) := by
  unfold claims; infer_instance

theorem spClientCreated_slot (p : PadState) (c : ClientIdentity) :
    ((spClientCreated p.sp c p.st).1).slot =
      if claims p c then some c.id else p.st.slot := by
  by_cases h : claims p c
  · obtain ⟨h1, h2⟩ := h
    rw [if_pos (show claims p c from ⟨h1, h2⟩), h1]
    simp [spClientCreated, h2, SpState.slot]
  · rw [if_neg h]
    cases hst : p.st with
    | pendingSpawn =>
      have hnp : p.sp.pred c = false := by
        cases hp : p.sp.pred c with
        | false => rfl
        | true => exact absurd ⟨hst, hp⟩ h
      simp [spClientCreated, hnp]
    | empty => simp [spClientCreated]
    | hidden j => simp [spClientCreated]
    | visible j => simp [spClientCreated]

theorem updateAt_map_eq {α β : Type} (g : α → β) (f : α → α)
    (hf : ∀ x, g (f x) = g x) :
    ∀ (i : Nat) (l : List α), (updateAt f i l).map g = l.map g := by
  intro i l
  induction l generalizing i with
  | nil => cases i <;> rfl
  | cons x xs ih =>
    cases i with
    | zero => simp [updateAt, hf]
    | succ j => simp [updateAt, ih]

theorem spClientDestroyed_slot_some (dcid : Nat) (st : SpState) (cid : Nat)
    (h : ((spClientDestroyed dcid st).1).slot = some cid) :
    st.slot = some cid ∧ cid ≠ dcid := by
  rw [spClientDestroyed_slot] at h
  by_cases hc : st.slot = some dcid
  · rw [if_pos hc] at h
    exact absurd h (by simp)
  · rw [if_neg hc] at h
    refine ⟨h, ?_⟩
    rintro rfl
    exact hc h

theorem updateAt_mem {α : Type} (f : α → α) :
    ∀ (i : Nat) (l : List α) (x : α), x ∈ updateAt f i l → x ∈ l ∨ ∃ y, y ∈ l ∧ x = f y := by
  intro i l
  induction l generalizing i with
  | nil => intro x hx; cases i <;> simp [updateAt] at hx
  | cons a as ih =>
    intro x hx
    cases i with
    | zero =>
      simp only [updateAt] at hx
      rcases List.mem_cons.mp hx with rfl | hx2
      · exact Or.inr ⟨a, List.mem_cons_self a as, rfl⟩
      · exact Or.inl (List.mem_cons_of_mem a hx2)
    | succ j =>
      simp only [updateAt] at hx
      rcases List.mem_cons.mp hx with rfl | hx2
      · exact Or.inl (List.mem_cons_self x as)
      · rcases ih j x hx2 with h | ⟨y, hy, rfl⟩
        · exact Or.inl (List.mem_cons_of_mem a h)
        · exact Or.inr ⟨y, List.mem_cons_of_mem a hy, rfl⟩

theorem updateAt_pairwise {α : Type} {R : α → α → Prop} (f : α → α)
    (hfl : ∀ a b, R a b → R (f a) b) (hfr : ∀ a b, R a b → R a (f b)) :
    ∀ (i : Nat) (l : List α), l.Pairwise R → (updateAt f i l).Pairwise R := by
  intro i l
  induction l generalizing i with
  | nil => intro h; cases i <;> exact h
  | cons a as ih =>
    intro h
    rcases List.pairwise_cons.mp h with ⟨hhead, htail⟩
    cases i with
    | zero =>
      simp only [updateAt]
      exact List.pairwise_cons.mpr ⟨fun b hb => hfl a b (hhead b hb), htail⟩
    | succ j =>
      simp only [updateAt]
      refine List.pairwise_cons.mpr ⟨?_, ih j htail⟩
      intro b hb
      rcases updateAt_mem f j as b hb with h2 | ⟨y, hy, rfl⟩
      · exact hhead b h2
      · exact hfr a y (hhead y hy)

theorem sysStep_pads_sp (s : SysState) (e : SysEvent) :
    (sysStep s e).pads.map (fun p => p.sp) = s.pads.map (fun p => p.sp) := by
  cases e with
  | toggleKey i =>
    exact updateAt_map_eq (fun p => p.sp)
      (fun p => { p with st := (spToggle p.sp p.st).1 }) (fun x => rfl) i s.pads
  | clientCreated c =>
    by_cases hc : c.id ∈ s.live
    · simp [sysStep, hc]
    · have he : (sysStep s (.clientCreated c)).pads =
          s.pads.map (fun q => { q with st := (spClientCreated q.sp c q.st).1 }) := by
        simp [sysStep, hc]
      rw [he, List.map_map]
      exact List.map_congr_left (fun a _ => rfl)
  | clientDestroyed dcid =>
    have he : (sysStep s (.clientDestroyed dcid)).pads =
        s.pads.map (fun q => { q with st := (spClientDestroyed dcid q.st).1 }) := rfl
    rw [he, List.map_map]
    exact List.map_congr_left (fun a _ => rfl)

theorem sysStep_slotsLive (s : SysState) (e : SysEvent) (hl : SlotsLive s) :
    SlotsLive (sysStep s e) := by
  cases e with
  | toggleKey i =>
    intro p hp cid hslot
    rcases updateAt_mem _ i s.pads p hp with h | ⟨y, hy, rfl⟩
    · exact hl p h cid hslot
    · refine hl y hy cid ?_
      rw [← spToggle_slot y.sp y.st]
      exact hslot
  | clientCreated c =>
    intro p hp cid hslot
    by_cases hc : c.id ∈ s.live
    · have he : sysStep s (.clientCreated c) = s := by simp [sysStep, hc]
      rw [he] at hp ⊢
      exact hl p hp cid hslot
    · have he : sysStep s (.clientCreated c) =
          { pads := s.pads.map (fun q => { q with st := (spClientCreated q.sp c q.st).1 }),
            live := insert c.id s.live } := by
        simp [sysStep, hc]
      rw [he] at hp ⊢
      rcases List.mem_map.mp hp with ⟨y, hy, rfl⟩
      have hslot2 : ((spClientCreated y.sp c y.st).1).slot = some cid := hslot
      rw [spClientCreated_slot y c] at hslot2
      by_cases hcl : claims y c
      · rw [if_pos hcl] at hslot2
        obtain rfl : c.id = cid := Option.some.inj hslot2
        exact Finset.mem_insert_self c.id s.live
      · rw [if_neg hcl] at hslot2
        exact Finset.mem_insert_of_mem (hl y hy cid hslot2)
  | clientDestroyed dcid =>
    intro p hp cid hslot
    rcases List.mem_map.mp hp with ⟨y, hy, rfl⟩
    have hsl : ((spClientDestroyed dcid y.st).1).slot = some cid := hslot
    have h2 := spClientDestroyed_slot_some dcid y.st cid hsl
    exact Finset.mem_erase.mpr ⟨h2.2, hl y hy cid h2.1⟩

theorem sysStep_slotsDisjoint (s : SysState) (e : SysEvent)
    (hdisj : PredsDisjoint (s.pads.map (fun p => p.sp)))
    (hl : SlotsLive s) (hd : SlotsDisjoint s) :
    SlotsDisjoint (sysStep s e) := by
  cases e with
  | toggleKey i =>
    refine updateAt_pairwise (fun p => { p with st := (spToggle p.sp p.st).1 })
      ?_ ?_ i s.pads hd
    · intro a b hab cid hcid
      apply hab cid
      rw [← spToggle_slot a.sp a.st]
      exact hcid
    · intro a b hab cid hcid hbad
      have hb2 : b.st.slot = some cid := by
        rw [← spToggle_slot b.sp b.st]
        exact hbad
      exact hab cid hcid hb2
  | clientCreated c =>
    by_cases hc : c.id ∈ s.live
    · have he : sysStep s (.clientCreated c) = s := by simp [sysStep, hc]
      rw [he]
      exact hd
    · have he : sysStep s (.clientCreated c) =
          { pads := s.pads.map (fun q => { q with st := (spClientCreated q.sp c q.st).1 }),
            live := insert c.id s.live } := by
        simp [sysStep, hc]
      rw [he]
      refine List.pairwise_map.mpr ?_
      have hdp : s.pads.Pairwise
          (fun a b => ∀ c2 : ClientIdentity, ¬(a.sp.pred c2 = true ∧ b.sp.pred c2 = true)) :=
        List.pairwise_map.mp hdisj
      refine (hd.and hdp).imp_of_mem ?_
      intro a b ha hb hab
      obtain ⟨habslot, habpred⟩ := hab
      intro cid hcid
      have hcid2 : ((spClientCreated a.sp c a.st).1).slot = some cid := hcid
      rw [spClientCreated_slot a c] at hcid2
      show ¬((spClientCreated b.sp c b.st).1).slot = some cid
      rw [spClientCreated_slot b c]
      by_cases hca : claims a c <;> by_cases hcb : claims b c
      · exact absurd ⟨hca.2, hcb.2⟩ (habpred c)
      · rw [if_pos hca] at hcid2
        obtain rfl : c.id = cid := Option.some.inj hcid2
        rw [if_neg hcb]
        intro hbs
        exact hc (hl b hb c.id hbs)
      · rw [if_neg hca] at hcid2
        rw [if_pos hcb]
        intro hbs
        obtain rfl : c.id = cid := Option.some.inj hbs
        exact hc (hl a ha c.id hcid2)
      · rw [if_neg hca] at hcid2
        rw [if_neg hcb]
        exact habslot cid hcid2
  | clientDestroyed dcid =>
    refine List.pairwise_map.mpr ?_
    refine hd.imp ?_
    intro a b hab cid hcid
    have hcid2 : ((spClientDestroyed dcid a.st).1).slot = some cid := hcid
    have h2 := spClientDestroyed_slot_some dcid a.st cid hcid2
    intro hbad
    have hbad2 : ((spClientDestroyed dcid b.st).1).slot = some cid := hbad
    have h3 := spClientDestroyed_slot_some dcid b.st cid hbad2
    exact hab cid h2.1 h3.1

/-- The system invariant the amended C4 establishes: occupied slots track live
clients, and no two slots track the same client. -/
def SysInv (s : SysState) : Prop := SlotsLive s ∧ SlotsDisjoint s

theorem sysRun_inv (evs : List SysEvent) : ∀ s : SysState,
    PredsDisjoint (s.pads.map (fun p => p.sp)) → SysInv s → SysInv (sysRun s evs) := by
  induction evs with
  | nil => intro s _ h; exact h
  | cons e es ih =>
    intro s hdisj h
    have hdisj2 : PredsDisjoint ((sysStep s e).pads.map (fun p => p.sp)) := by
      rw [sysStep_pads_sp]
      exact hdisj
    exact ih (sysStep s e) hdisj2
      ⟨sysStep_slotsLive s e h.1, sysStep_slotsDisjoint s e hdisj h.1 h.2⟩

theorem countP_le_one_of_pairwise {α : Type} (p : α → Bool) :
    ∀ l : List α, l.Pairwise (fun a b => ¬(p a = true ∧ p b = true)) → l.countP p ≤ 1 := by
  intro l
  induction l with
  | nil => intro _; simp [List.countP_nil]
  | cons x xs ih =>
    intro h
    rcases List.pairwise_cons.mp h with ⟨hhead, htail⟩
    cases hx : p x with
    | false =>
      rw [List.countP_cons_of_neg p xs (by simp [hx])]
      exact ih htail
    | true =>
      rw [List.countP_cons_of_pos p xs hx]
      have hz : xs.countP p = 0 :=
        List.countP_eq_zero.mpr (fun b hb hpb => hhead b hb ⟨hx, hpb⟩)
      rw [hz]

theorem sysInit_slotsLive (sps : List Scratchpad) : SlotsLive (sysInit sps) := by
  intro p hp cid hslot
  rcases List.mem_map.mp hp with ⟨sp, hsp, rfl⟩
  exact Option.noConfusion hslot

theorem sysInit_slotsDisjoint (sps : List Scratchpad) : SlotsDisjoint (sysInit sps) := by
  refine List.pairwise_map.mpr ?_
  refine List.pairwise_of_forall ?_
  intro x y cid hcid
  exact Option.noConfusion hcid

theorem sysInit_pads_sp (sps : List Scratchpad) :
    (sysInit sps).pads.map (fun p => p.sp) = sps := by
  have h : ∀ l : List Scratchpad,
      (l.map (fun sp => ({ sp := sp, st := .empty } : PadState))).map (fun p => p.sp) = l := by
    intro l
    induction l with
    | nil => rfl
    | cons a as ih =>
      simp only [List.map_cons]
      rw [ih]
  exact h sps

/-- C4 counterexample: with the three identically configured "st" scratchpads
of `src/main.rs`, toggling the first two (both now pending) and then creating
one client of class "st" with id 1 leaves id 1 recorded in the ownership slots
of BOTH of the first two scratchpads: a reachable state in which a client id
appears in more than one `ScratchpadState` slot, refuting the claimed
invariant for this configuration. -/
theorem C4_counterexample_shared_client :
    ((sysRun (sysInit mainScratchpads)
        [.toggleKey 0, .toggleKey 1, .clientCreated ⟨1, "st", "st"⟩]).pads.map
      (fun p => p.st.slot)) = [some 1, some 1, none] ∧
    ((sysRun (sysInit mainScratchpads)
        [.toggleKey 0, .toggleKey 1, .clientCreated ⟨1, "st", "st"⟩]).pads.countP
      (fun p => p.st.slot == some 1)) = 2 := by
  constructor <;> rfl

/-- C4 (amended): provided the registered scratchpads' match predicates are
pairwise disjoint — no client identity is matched by two of them — every
state reachable by toggle, client-created and client-destroyed events from
startup has each client id in at most one scratchpad's ownership slot.  (The
configuration in `src/main.rs` violates the proviso: its three scratchpads
share the same predicate, and a single created "st" client is then claimed by
every pending scratchpad, as the counterexample shows.) -/
theorem C4_amended_at_most_one_slot (sps : List Scratchpad) (evs : List SysEvent)
    (hdisj : PredsDisjoint sps) (cid : Nat) :
    (sysRun (sysInit sps) evs).pads.countP (fun p => p.st.slot == some cid) ≤ 1 := by
  have hinv := sysRun_inv evs (sysInit sps)
    (by rw [sysInit_pads_sp]; exact hdisj)
    ⟨sysInit_slotsLive sps, sysInit_slotsDisjoint sps⟩
  refine countP_le_one_of_pairwise _ _ ?_
  refine hinv.2.imp ?_
  intro a b hab hbad
  obtain ⟨h1, h2⟩ := hbad
  exact hab cid (eq_of_beq h1) (eq_of_beq h2)

/-- Witness for the amended C4: a single registered scratchpad trivially has
pairwise disjoint predicates, and after a toggle plus a matching
client-created event the id is tracked by at most one slot. -/
theorem C4_amended_at_most_one_slot_witness :
    PredsDisjoint [spSt] ∧
    (sysRun (sysInit [spSt]) [.toggleKey 0, .clientCreated ⟨1, "st", "st"⟩]).pads.countP
      (fun p => p.st.slot == some 1) ≤ 1 :=
  ⟨by simp [PredsDisjoint],
   C4_amended_at_most_one_slot [spSt] [.toggleKey 0, .clientCreated ⟨1, "st", "st"⟩]
     (by simp [PredsDisjoint]) 1⟩

/-- A display region, as queried from the external runtime. -/
structure Region where
  rWidth : Nat
  rHeight : Nat
deriving DecidableEq

/-- Modelled from the spec: a layout selector wrapping two alternative layout
algorithms behind one logical layout, with a predicate over the current
display region (the selector's code is not under `src/`). -/
structure LayoutAlternatives (L : Type) where
  primary : L
  secondary : L
  cond : Region → Bool

/-- Modelled from the spec: `current(alternatives, region)` evaluates the
stored predicate against the live region and selects the primary alternative
when it holds, the secondary otherwise.  Pure and stateless: recomputed at
every evaluation. -/
def currentLayout {L : Type} (alts : LayoutAlternatives L) (r : Region) : L :=
  if alts.cond r then alts.primary else alts.secondary

/-- Modelled from the spec: the width-threshold selector — the predicate is
"region width at most the threshold", so the primary is chosen on narrow
regions and exactly at the threshold. -/
def widthSelector {L : Type} (primary secondary : L) (threshold : Nat) :
    LayoutAlternatives L :=
  { primary := primary, secondary := secondary,
    cond := fun r => decide (r.rWidth ≤ threshold) }

/-- C6: the selector returns the secondary alternative when the region width
strictly exceeds the threshold, the primary when the width is at most the
threshold, and in particular the primary at width exactly the threshold. -/
theorem C6_layout_selector_threshold {L : Type} (p s : L) (t : Nat) (r : Region) :
    (t < r.rWidth → currentLayout (widthSelector p s t) r = s) ∧
    (r.rWidth ≤ t → currentLayout (widthSelector p s t) r = p) ∧
    (r.rWidth = t → currentLayout (widthSelector p s t) r = p) := by
  refine ⟨?_, ?_, ?_⟩
  · intro h
    simp [currentLayout, widthSelector, Nat.not_le.mpr h]
  · intro h
    simp [currentLayout, widthSelector, h]
  · intro h
    simp [currentLayout, widthSelector, Nat.le_of_eq h]

/-- Witness for C6 at concrete inputs: threshold 1000, a 1920-wide region
selects the secondary layout and a region exactly 1000 wide selects the
primary. -/
theorem C6_layout_selector_threshold_witness :
    (1000 < (1920 : Nat) ∧
      currentLayout (widthSelector ("[side]") ("[mono]") 1000) ⟨1920, 1080⟩ = "[mono]") ∧
    ((1000 : Nat) = 1000 ∧
      currentLayout (widthSelector ("[side]") ("[mono]") 1000) ⟨1000, 1080⟩ = "[side]") :=
  ⟨⟨by decide,
    (C6_layout_selector_threshold ("[side]") ("[mono]") 1000 ⟨1920, 1080⟩).1 (by decide)⟩,
   ⟨rfl,
    (C6_layout_selector_threshold ("[side]") ("[mono]") 1000 ⟨1000, 1080⟩).2.2 rfl⟩⟩

/-- Modelled from the spec: the sticky extension's toggle
(`toggle_sticky(identity, set) -> set'`, code not under `src/`): flip
membership of the id in the process-wide sticky set. -/
def toggle_sticky (s : Finset Nat) (cid : Nat) : Finset Nat :=
  if cid ∈ s then s.erase cid else insert cid s

/-- C7: `toggle_sticky` is an involution — applying it twice with the same
client id returns the original set, because one application flips
membership. -/
theorem C7_toggle_sticky_involution (s : Finset Nat) (cid : Nat) :
    toggle_sticky (toggle_sticky s cid) cid = s := by
  simp only [toggle_sticky]
  by_cases h : cid ∈ s
  · rw [if_pos h, if_neg (Finset.not_mem_erase cid s), Finset.insert_erase h]
  · rw [if_neg h, if_pos (Finset.mem_insert_self cid s), Finset.erase_insert h]

/-- A managed client as the sticky reconciliation sees it: its id and the tag
(workspace) it currently sits on. -/
structure SClient where
  cid : Nat
  tag : String
deriving DecidableEq

/-- Whether reconciliation must move this client: it is pinned sticky and its
current tag differs from the active tag. -/
def stickyNeedsMove (sticky : Finset Nat) (active : String) (c : SClient) : Bool :=
  decide (c.cid ∈ sticky) && (c.tag != active)

/-- Move a client to the active tag when sticky reconciliation requires it. -/
def moveSticky (sticky : Finset Nat) (active : String) (c : SClient) : SClient :=
  if stickyNeedsMove sticky active c then { c with tag := active } else c

/-- Modelled from the spec: `reconcile(set, client_set, active_tag)` re-homes
every sticky client still present in the client collection to the active tag
and reports whether at least one move happened (code not under `src/`). -/
def reconcile (sticky : Finset Nat) (clients : List SClient) (active : String) :
    List SClient × Bool :=
  (clients.map (moveSticky sticky active), clients.any (stickyNeedsMove sticky active))

theorem reconcile_no_move (sticky : Finset Nat) (clients : List SClient) (active : String)
    (h : ∀ c ∈ clients, c.cid ∈ sticky → c.tag = active) :
    reconcile sticky clients active = (clients, false) := by
  have hno : ∀ c ∈ clients, stickyNeedsMove sticky active c = false := by
    intro c hc
    by_cases hm : c.cid ∈ sticky
    · have ht : c.tag = active := h c hc hm
      simp [stickyNeedsMove, ht]
    · simp [stickyNeedsMove, hm]
  have h1 : clients.map (moveSticky sticky active) = clients := by
    have hid : ∀ c ∈ clients, moveSticky sticky active c = c := by
      intro c hc
      simp [moveSticky, hno c hc]
    calc clients.map (moveSticky sticky active)
        = clients.map id := List.map_congr_left (fun a ha => hid a ha)
      _ = clients := List.map_id clients
  have h2 : clients.any (stickyNeedsMove sticky active) = false := by
    simp only [List.any_eq_false]
    intro c hc
    simp [hno c hc]
  unfold reconcile
  rw [h1, h2]

theorem stickyNeedsMove_false (sticky : Finset Nat) (active : String) (c0 : SClient)
    (hneed : stickyNeedsMove sticky active c0 = false) (hm : c0.cid ∈ sticky) :
    c0.tag = active := by
  simp only [stickyNeedsMove, Bool.and_eq_false_iff, decide_eq_false_iff_not,
    bne_eq_false_iff_eq] at hneed
  rcases hneed with h | h
  · exact absurd hm h
  · exact h

/-- C8: when every sticky client still present in the collection already sits
on the active tag, `reconcile` returns the collection unchanged and reports
that no move occurred; consequently a second `reconcile` immediately after any
first one reports no move and changes nothing. -/
theorem C8_reconcile_idempotent (sticky : Finset Nat) (clients : List SClient)
    (active : String) (h : ∀ c ∈ clients, c.cid ∈ sticky → c.tag = active) :
    reconcile sticky clients active = (clients, false) ∧
    ∀ clients0 : List SClient,
      reconcile sticky (reconcile sticky clients0 active).1 active =
        ((reconcile sticky clients0 active).1, false) := by
  refine ⟨reconcile_no_move sticky clients active h, ?_⟩
  intro clients0
  apply reconcile_no_move
  intro c hc hm
  rcases List.mem_map.mp hc with ⟨c0, hc0, rfl⟩
  cases hneed : stickyNeedsMove sticky active c0 with
  | true => simp [moveSticky, hneed]
  | false =>
    have hmv : moveSticky sticky active c0 = c0 := by simp [moveSticky, hneed]
    rw [hmv] at hm ⊢
    exact stickyNeedsMove_false sticky active c0 hneed hm

/-- Witness for C8: sticky set containing id 5, clients 5 (already on the
active tag "2") and 6; `reconcile` leaves the collection unchanged and
reports no move. -/
theorem C8_reconcile_idempotent_witness :
    (∀ c ∈ ([⟨5, "2"⟩, ⟨6, "1"⟩] : List SClient), c.cid ∈ ({5} : Finset Nat) → c.tag = "2") ∧
    reconcile ({5} : Finset Nat) ([⟨5, "2"⟩, ⟨6, "1"⟩] : List SClient) ("2") =
      ([⟨5, "2"⟩, ⟨6, "1"⟩], false) :=
  ⟨by decide,
   (C8_reconcile_idempotent ({5} : Finset Nat) ([⟨5, "2"⟩, ⟨6, "1"⟩] : List SClient)
     ("2") (by decide)).1⟩

/-- Modelled from the spec: scratchpad construction
(`Scratchpad::new(prog, w, h)` in penrose, called at `src/main.rs` line 159;
code not under `src/`).  A geometry fraction outside the interval (0,1] is a
configuration error, rejected at construction time.  The match predicate
targets clients whose class name is the spawned program. -/
def Scratchpad.new (prog : String) (w h : ℚ) : Option Scratchpad :=
  if 0 < w ∧ w ≤ 1 ∧ 0 < h ∧ h ≤ 1 then
    some { prog := prog, pred := fun c => c.className == prog,
           wFrac := w, hFrac := h, focusOnShow := true }
  else none

/-- Modelled from the spec: startup constructs the three configured
scratchpads of `src/main.rs` before the event loop is entered; any
construction failure is fatal, so the event loop is reached only with every
definition validated. -/
def startupScratchpads : Option (List Scratchpad) := do
  let s1 ← Scratchpad.new ("st") (8/10) (8/10)
  let s2 ← Scratchpad.new ("st") (8/10) (8/10)
  let s3 ← Scratchpad.new ("st") (8/10) (8/10)
  pure [s1, s2, s3]

theorem scratchpadNew_st : Scratchpad.new ("st") (8/10) (8/10) = some spSt := by
  have hcond : (0:ℚ) < 8/10 ∧ (8/10:ℚ) ≤ 1 ∧ (0:ℚ) < 8/10 ∧ (8/10:ℚ) ≤ 1 := by norm_num
  unfold Scratchpad.new
  rw [if_pos hcond]
  rfl

theorem startupScratchpads_eq : startupScratchpads = some [spSt, spSt, spSt] := by
  simp [startupScratchpads, scratchpadNew_st]

/-- C9: constructing a scratchpad with a geometry fraction outside (0,1]
fails at construction time, and startup only reaches the event loop when
every configured scratchpad construction succeeded, so every definition in
place there has fractions inside (0,1]. -/
theorem C9_invalid_geometry_fatal :
    (∀ (prog : String) (w h : ℚ), ¬(0 < w ∧ w ≤ 1 ∧ 0 < h ∧ h ≤ 1) →
      Scratchpad.new prog w h = none) ∧
    (∀ sps, startupScratchpads = some sps →
      ∀ sp ∈ sps, 0 < sp.wFrac ∧ sp.wFrac ≤ 1 ∧ 0 < sp.hFrac ∧ sp.hFrac ≤ 1) := by
  constructor
  · intro prog w h hb
    unfold Scratchpad.new
    rw [if_neg hb]
  · intro sps hs sp hsp
    rw [startupScratchpads_eq] at hs
    obtain rfl : [spSt, spSt, spSt] = sps := Option.some.inj hs
    simp only [List.mem_cons, List.not_mem_nil, or_false] at hsp
    rcases hsp with rfl | rfl | rfl <;> norm_num [spSt]

/-- Witness for C9: a width fraction of 2 is rejected (construction returns
`none`), while the configured 0.8 fractions pass validation. -/
theorem C9_invalid_geometry_fatal_witness :
    Scratchpad.new ("st") 2 (8/10) = none ∧
    (0 < spSt.wFrac ∧ spSt.wFrac ≤ 1 ∧ 0 < spSt.hFrac ∧ spSt.hFrac ≤ 1) := by
  have hnot : ¬((0:ℚ) < 2 ∧ (2:ℚ) ≤ 1 ∧ (0:ℚ) < 8/10 ∧ (8/10:ℚ) ≤ 1) := by norm_num
  exact ⟨C9_invalid_geometry_fatal.1 ("st") 2 (8/10) hnot,
    C9_invalid_geometry_fatal.2 [spSt, spSt, spSt] startupScratchpads_eq spSt (by simp)⟩

/-- The window classes configured to always float, from
`config_builder.floating_classes` in `src/main.rs` (line 57). -/
def floating_classes : List String := ["dmenu", "dunst", "polybar", "rofi"]

/-- Modelled from the spec's collaborator contract: penrose manages a newly
created client as floating exactly when its WM_CLASS is listed in
`floating_classes`; the decision depends only on the class name, hence is the
same on every workspace and under every layout. -/
def clientFloats (c : ClientIdentity) : Bool :=
  floating_classes.contains c.className

/-- C10: a newly created client floats exactly when its WM_CLASS is "dmenu",
"dunst", "polybar" or "rofi"; no other class name is given this treatment by
the configuration. -/
theorem C10_floating_classes_exact (c : ClientIdentity) :
    clientFloats c = true ↔
      (c.className = "dmenu" ∨ c.className = "dunst" ∨
       c.className = "polybar" ∨ c.className = "rofi") := by
  simp [clientFloats, floating_classes]

/-- Witness for C10: a "dunst" client floats, a "firefox" client does not. -/
theorem C10_floating_classes_exact_witness :
    clientFloats ⟨1, "dunst", "x"⟩ = true ∧ ¬clientFloats ⟨2, "firefox", "x"⟩ = true :=
  ⟨(C10_floating_classes_exact ⟨1, "dunst", "x"⟩).mpr (by simp),
   fun h => by
     rcases (C10_floating_classes_exact ⟨2, "firefox", "x"⟩).mp h with h1 | h1 | h1 | h1 <;>
       exact absurd h1 (by decide)⟩
